import Mathlib

/-!
Shallow embedding of the Projection & Exposure-Risk Engine of the
lidia-investe application.

Source of the embedding:
* `src/types.ts` — the `Investment`, `MarketRates` data model and the
  `InvestmentTitle` / `InvestmentType` enums.
* `src/App.tsx` (second component copy, lines 443–469 and 515–522,
  1050–1068) — the bulk recompute `updatedInvestments`, the exposure
  aggregation `fgcExposure`, and the global-limit classification
  (`totalFGC`, `FGC_GLOBAL_LIMIT`, `isGlobalOver`, `isGlobalWarning`).
* `src/unnamed/part_000` (investmentService) — `fetchMarketRates`.
* The projection routine `calculateFutureValue` is imported by the app
  from `utils/calculations.ts`, a file that is not part of the sources;
  it is modelled from the specification (see the doc comments below).

Modelling conventions: JavaScript numbers are modelled as exact numbers
(`ℚ` where the code only adds, compares and sorts; `ℝ` where the spec
requires real-valued exponentiation).  Calendar dates are modelled as
integer day indices, so `dueDate - startDate` is the holding period in
calendar days.  A JavaScript object used as a string-keyed accumulator
is modelled as an association list in key-insertion order, and
`Array.prototype.sort` (which is stable) is modelled as a stable
insertion sort with the same comparator.
-/

/-- Enum `InvestmentTitle` from `src/types.ts`. -/
inductive InvestmentTitle
  | CDB
  | LCI
  | LTN
  | NTNB
deriving DecidableEq

/-- Enum `InvestmentType` from `src/types.ts`: the indexation regime of a
position.  `CDI` is the spec's `PostFixedToReferenceIndex`, `IPCA` is
`InflationLinked`, `PREFIXADO` is `FixedNominal`. -/
inductive InvestmentType
  | CDI
  | IPCA
  | PREFIXADO
deriving DecidableEq

/-- `MarketRates` from `src/types.ts`: the current annual market reference
rates, in percent.  `cdi` is the spec's `referenceIndexAnnualRate`,
`ipca` the `inflationAnnualRate`. -/
structure MarketRates where
  cdi : ℚ
  ipca : ℚ
deriving DecidableEq

/-- `Investment` from `src/types.ts`.  Dates are modelled as integer
calendar-day indices. -/
structure Investment where
  id : String
  broker : String
  bank : String
  title : InvestmentTitle
  type : InvestmentType
  amount : ℚ
  quantity : ℚ
  interestRate : ℚ
  incomeTax : ℚ
  startDate : ℤ
  dueDate : ℤ
  futureValue : ℚ
  netFutureValue : ℚ
  createdAt : ℤ
deriving DecidableEq

/-! ### Exposure aggregation (`src/App.tsx`, lines 515–522 and 1050–1068) -/

/-- Whitespace trimming of `String.prototype.trim`, on the character
sequence of the string: drop whitespace from both ends. -/
def trimChars (l : List Char) : List Char :=
  ((l.dropWhile Char.isWhitespace).reverse.dropWhile Char.isWhitespace).reverse

/-- The institution-name normalization `inv.bank.trim().toUpperCase()`
used by `fgcExposure` (`src/App.tsx` line 518), modelled on the
character sequence of the name. -/
def normalizeBank (s : String) : String :=
  ⟨(trimChars s.data).map Char.toUpper⟩

/-- One step of the accumulator update
`banks[bankName] = (banks[bankName] || 0) + (inv.futureValue || 0)`
(`src/App.tsx` line 519), on the association-list model of the `banks`
object: if the key is present its total is increased in place, otherwise
the key is appended at the end (JavaScript string-keyed objects preserve
key-insertion order). -/
def upsertBank : List (String × ℚ) → String → ℚ → List (String × ℚ)
  | [], name, v => [(name, v)]
  | (n, t) :: rest, name, v =>
    if n = name then (n, t + v) :: rest else (n, t) :: upsertBank rest name v

/-- The `banks` accumulator built by the `forEach` loop of `fgcExposure`
(`src/App.tsx` lines 516–520), before sorting. -/
def bankEntries (investments : List Investment) : List (String × ℚ) :=
  investments.foldl
    (fun banks inv => upsertBank banks (normalizeBank inv.bank) inv.futureValue) []

/-- The order induced by the comparator `(a, b) => b[1] - a[1]`
(`src/App.tsx` line 521): `a` may stay before `b` exactly when
`b.2 ≤ a.2`. -/
def byTotalDesc (a b : String × ℚ) : Prop :=
  b.2 ≤ a.2

instance : DecidableRel byTotalDesc :=
  fun a b => inferInstanceAs (Decidable (b.2 ≤ a.2))

instance : IsTotal (String × ℚ) byTotalDesc :=
  ⟨fun a b => le_total b.2 a.2⟩

instance : IsTrans (String × ℚ) byTotalDesc :=
  ⟨fun _ _ _ h1 h2 => le_trans h2 h1⟩

/-- `fgcExposure` (`src/App.tsx` lines 515–522): the `(institution, total)`
entries of the `banks` object, sorted with the comparator
`(a, b) => b[1] - a[1]`.  `Array.prototype.sort` is stable, which a
stable insertion sort under `byTotalDesc` reproduces exactly. -/
def fgcExposure (investments : List Investment) : List (String × ℚ) :=
  List.insertionSort byTotalDesc (bankEntries investments)

/-- `totalFGC` (`src/App.tsx` line 1050):
`investments.reduce((acc, curr) => acc + (curr.futureValue || 0), 0)`. -/
def totalFGC (investments : List Investment) : ℚ :=
  investments.foldl (fun acc curr => acc + curr.futureValue) 0

/-- `FGC_GLOBAL_LIMIT` (`src/App.tsx` line 1051). -/
def FGC_GLOBAL_LIMIT : ℚ := 1000000

/-- `isGlobalOver` (`src/App.tsx` line 1053). -/
def isGlobalOver (investments : List Investment) : Bool :=
  decide (totalFGC investments > FGC_GLOBAL_LIMIT)

/-- `isGlobalWarning` (`src/App.tsx` line 1054). -/
def isGlobalWarning (investments : List Investment) : Bool :=
  decide (totalFGC investments > FGC_GLOBAL_LIMIT * 0.8) && !(isGlobalOver investments)

/-- The risk classification of the spec's `ExposureReport`. -/
inductive RiskLevel
  | Safe
  | Warning
  | Over
deriving DecidableEq

/-- The `if (isGlobalOver) … else if (isGlobalWarning) … else …` chain of
`src/App.tsx` lines 1056–1068, read as the spec's `riskLevel`. -/
def riskLevel (investments : List Investment) : RiskLevel :=
  if isGlobalOver investments then RiskLevel.Over
  else if isGlobalWarning investments then RiskLevel.Warning
  else RiskLevel.Safe

/-- Total gross value booked for institution `name` in an exposure entry
list: specification vocabulary for the per-institution totals. -/
def keyTotal (l : List (String × ℚ)) (name : String) : ℚ :=
  ((l.filter (fun e => decide (e.1 = name))).map (fun e => e.2)).sum

/-- A position with the given institution name and gross projected value;
the remaining fields are irrelevant to the aggregator. -/
def sampleInv (bank : String) (futureValue : ℚ) : Investment :=
  { id := "", broker := "", bank := bank, title := InvestmentTitle.CDB,
    type := InvestmentType.CDI, amount := 1, quantity := 1, interestRate := 100,
    incomeTax := 15, startDate := 0, dueDate := 365, futureValue := futureValue,
    netFutureValue := futureValue, createdAt := 0 }

/-! ### Market-rates retrieval (`src/unnamed/part_000`, lines 107–120) -/

/-- A row of the `market_rates` store, with its numeric columns already
read off as numbers (the `Number(...)` coercions at the call site). -/
structure MarketRatesRow where
  cdi : ℚ
  ipca : ℚ
deriving DecidableEq

/-- `fetchMarketRates` (`src/unnamed/part_000`, lines 107–120): the store
reply is modelled by an error flag and an optional row; on
`if (error || !data)` the fixed default snapshot is returned. -/
def fetchMarketRates (error : Bool) (data : Option MarketRatesRow) : MarketRates :=
  match error, data with
  | true, _ => { cdi := 11.25, ipca := 4.5 }
  | false, none => { cdi := 11.25, ipca := 4.5 }
  | false, some row => { cdi := row.cdi, ipca := row.ipca }

/-! ### Projection (`calculateFutureValue`)

The application imports `calculateFutureValue` from
`utils/calculations.ts`, a file that is not among the sources; the
definitions of this section are therefore modelled from the
specification (§4.1 RateResolver, §4.2 CompoundingCalculator). -/

/-- Modelled from the spec: the error taxonomy of the missing
`utils/calculations.ts` projection routine (§7; `InvalidRegime` cannot
arise because the regime enum is closed). -/
inductive CalcError
  | InvalidPeriod
  | InvalidPrincipal
deriving DecidableEq

/-- `CalculationResult` as imported from `utils/calculations.ts` by
`src/components/InvestmentForm.tsx`: the gross and net projected values,
already rounded to currency precision. -/
structure CalculationResult where
  gross : ℚ
  net : ℚ
deriving DecidableEq

/-- Modelled from the spec: the RateResolver (§4.1) of the missing
`utils/calculations.ts`.  Maps the indexation regime, the position's rate
parameter (`interestRate`, a percentage) and the market rates to the
effective annual rate as a fraction. -/
def effectiveAnnualRate (t : InvestmentType) (rateParameter : ℚ) (rates : MarketRates) : ℚ :=
  match t with
  | InvestmentType.CDI => rates.cdi / 100 * (rateParameter / 100)
  | InvestmentType.IPCA => (1 + rates.ipca / 100) * (1 + rateParameter / 100) - 1
  | InvestmentType.PREFIXADO => rateParameter / 100

/-- Modelled from the spec: rounding to the currency's two decimal places
at the output boundary (§4.2 step 5). -/
noncomputable def round2 (x : ℝ) : ℚ :=
  (round (100 * x) : ℤ) / 100

/-- Modelled from the spec: compound growth
`principal * (1 + effectiveAnnualRate) ^ (days / 365)` with real-valued
exponentiation (§4.2 steps 1–2). -/
noncomputable def grossFutureValue (principal r : ℝ) (days : ℤ) : ℝ :=
  principal * (1 + r) ^ ((days : ℝ) / 365)

/-- Modelled from the spec: the unrounded gross projected value of a
position under the given market rates. -/
noncomputable def projectedGross (inv : Investment) (rates : MarketRates) : ℝ :=
  grossFutureValue (inv.amount : ℝ)
    ((effectiveAnnualRate inv.type inv.interestRate rates : ℚ) : ℝ)
    (inv.dueDate - inv.startDate)

/-- Modelled from the spec: the unrounded projected gain
`gross − principal` (§4.2 step 3). -/
noncomputable def projectedGain (inv : Investment) (rates : MarketRates) : ℝ :=
  projectedGross inv rates - (inv.amount : ℝ)

/-- Modelled from the spec: `calculateFutureValue` of the missing
`utils/calculations.ts` (§4.2, §7).  Validation: `InvalidPeriod` when
`dueDate ≤ startDate`, then `InvalidPrincipal` when `principal ≤ 0` (the
order in which §4.2 lists the failure conditions).  Otherwise tax applies
to the gain only when the gain is non-negative; a loss is passed through
untaxed (`net = gross`).  Both outputs are rounded to two decimal places
only at the output boundary. -/
noncomputable def calculateFutureValue (inv : Investment) (rates : MarketRates) :
    Except CalcError CalculationResult :=
  if inv.dueDate ≤ inv.startDate then Except.error CalcError.InvalidPeriod
  else if inv.amount ≤ 0 then Except.error CalcError.InvalidPrincipal
  else if projectedGain inv rates < 0 then
    Except.ok ⟨round2 (projectedGross inv rates), round2 (projectedGross inv rates)⟩
  else
    Except.ok ⟨round2 (projectedGross inv rates),
      round2 ((inv.amount : ℝ) + projectedGain inv rates * (1 - (inv.incomeTax : ℝ) / 100))⟩

/-- The bulk recompute of `handleMarketRatesChange` (`src/App.tsx` lines
449–456): `investments.map(inv => ({ ...inv, futureValue: gross,
netFutureValue: net }))` with `{gross, net} = calculateFutureValue(inv,
newRates)`.  A position on which the projection reports a validation
error is left unchanged. -/
noncomputable def updatedInvestments (investments : List Investment) (newRates : MarketRates) :
    List Investment :=
  investments.map fun inv =>
    match calculateFutureValue inv newRates with
    | Except.ok r => { inv with futureValue := r.gross, netFutureValue := r.net }
    | Except.error _ => inv

/-! ### Helper lemmas about the aggregator -/

/-- `riskLevel` as a single conditional on the global total. -/
lemma riskLevel_spec (investments : List Investment) :
    riskLevel investments =
      (if FGC_GLOBAL_LIMIT < totalFGC investments then RiskLevel.Over
       else if FGC_GLOBAL_LIMIT * 0.8 < totalFGC investments then RiskLevel.Warning
       else RiskLevel.Safe) := by
  unfold riskLevel isGlobalWarning isGlobalOver
  by_cases h1 : FGC_GLOBAL_LIMIT < totalFGC investments <;>
    by_cases h2 : FGC_GLOBAL_LIMIT * 0.8 < totalFGC investments <;>
      simp [isGlobalOver, h1, h2]

lemma totalFGC_foldl (investments : List Investment) (a : ℚ) :
    investments.foldl (fun acc curr => acc + curr.futureValue) a =
      a + (investments.map (fun i => i.futureValue)).sum := by
  induction investments generalizing a with
  | nil => simp
  | cons inv rest ih => simp [ih, add_assoc]

lemma keyTotal_cons (m : String) (t : ℚ) (l : List (String × ℚ)) (name : String) :
    keyTotal ((m, t) :: l) name = (if m = name then t else 0) + keyTotal l name := by
  by_cases h : m = name <;> simp [keyTotal, List.filter_cons, h]

lemma keyTotal_upsertBank (l : List (String × ℚ)) (n : String) (v : ℚ) (name : String) :
    keyTotal (upsertBank l n v) name = keyTotal l name + (if n = name then v else 0) := by
  induction l with
  | nil =>
    by_cases h : n = name <;> simp [upsertBank, keyTotal_cons, keyTotal, h]
  | cons e rest ih =>
    obtain ⟨m, t⟩ := e
    by_cases hmn : m = n
    · subst hmn
      by_cases hm : m = name <;>
        simp [upsertBank, keyTotal_cons, hm] <;> ring
    · simp only [upsertBank, if_neg hmn, keyTotal_cons, ih]
      by_cases hm : m = name <;> simp [hm] <;> ring

lemma keyTotal_perm {l l' : List (String × ℚ)} (h : l.Perm l') (name : String) :
    keyTotal l name = keyTotal l' name :=
  List.Perm.sum_eq ((h.filter _).map _)

lemma keyTotal_bankEntries_foldl (investments : List Investment)
    (acc : List (String × ℚ)) (name : String) :
    keyTotal (investments.foldl
        (fun banks inv => upsertBank banks (normalizeBank inv.bank) inv.futureValue) acc)
      name =
    keyTotal acc name +
      ((investments.filter (fun i => decide (normalizeBank i.bank = name))).map
        (fun i => i.futureValue)).sum := by
  induction investments generalizing acc with
  | nil => simp
  | cons inv rest ih =>
    simp only [List.foldl_cons, ih, keyTotal_upsertBank, List.filter_cons]
    by_cases h : normalizeBank inv.bank = name <;> simp [h] <;> ring

/-- Inserting an entry with `List.orderedInsert byTotalDesc` does not change
the relative order of the entries carrying any fixed total `t`: the new
entry lands before every existing entry of equal total. -/
lemma filter_total_orderedInsert (t : ℚ) (a : String × ℚ) (l : List (String × ℚ)) :
    (List.orderedInsert byTotalDesc a l).filter (fun e => decide (e.2 = t)) =
      (a :: l).filter (fun e => decide (e.2 = t)) := by
  induction l with
  | nil => simp
  | cons b l ih =>
    by_cases hab : byTotalDesc a b
    · simp [List.orderedInsert, hab]
    · have hlt : a.2 < b.2 := not_le.mp hab
      simp only [List.orderedInsert, if_neg hab, List.filter_cons]
      by_cases hb : b.2 = t
      · have ha : ¬a.2 = t := by rw [← hb]; exact ne_of_lt hlt
        simp [hb, ha, ih, List.filter_cons]
      · by_cases ha : a.2 = t <;> simp [hb, ha, ih, List.filter_cons]

/-- Sorting with the comparator of `fgcExposure` keeps the entries of any
fixed total `t` in their pre-sort (first-occurrence) order. -/
lemma filter_total_insertionSort (t : ℚ) (l : List (String × ℚ)) :
    (List.insertionSort byTotalDesc l).filter (fun e => decide (e.2 = t)) =
      l.filter (fun e => decide (e.2 = t)) := by
  induction l with
  | nil => rfl
  | cons a l ih =>
    simp only [List.insertionSort]
    rw [filter_total_orderedInsert]
    simp only [List.filter_cons, ih]

/-! ### Claims about the exposure aggregator -/

/-- C1: For every position collection, the risk classification over the
global total of gross projected values is `Over` iff
`globalTotal > 1000000`, `Warning` iff `globalTotal > 800000` and not
`Over`, and `Safe` otherwise; in particular a global total of 1050000
classifies as `Over`, 850000 as `Warning`, and 350000 as `Safe`. -/
theorem C1_risk_classification :
    (∀ investments : List Investment,
      (riskLevel investments = RiskLevel.Over ↔
        totalFGC investments > FGC_GLOBAL_LIMIT) ∧
      (riskLevel investments = RiskLevel.Warning ↔
        (totalFGC investments > FGC_GLOBAL_LIMIT * 0.8 ∧
          ¬totalFGC investments > FGC_GLOBAL_LIMIT)) ∧
      (riskLevel investments = RiskLevel.Safe ↔
        ¬totalFGC investments > FGC_GLOBAL_LIMIT * 0.8)) ∧
    riskLevel [sampleInv "A" 1050000] = RiskLevel.Over ∧
    riskLevel [sampleInv "A" 850000] = RiskLevel.Warning ∧
    riskLevel [sampleInv "A" 350000] = RiskLevel.Safe := by
  refine ⟨fun investments => ?_, ?_, ?_, ?_⟩
  · have h8 : FGC_GLOBAL_LIMIT * 0.8 < FGC_GLOBAL_LIMIT := by
      norm_num [FGC_GLOBAL_LIMIT]
    rw [riskLevel_spec]
    split_ifs with h1 h2
    · refine ⟨by simp [h1], by simp [h1], ?_⟩
      simp
      linarith
    · refine ⟨by simp [h1], by simp [h1, h2], by simp [h2]⟩
    · refine ⟨?_, ?_, by simp [h2]⟩ <;> simp [h1, h2]
  · norm_num [riskLevel_spec, totalFGC, FGC_GLOBAL_LIMIT, sampleInv]
  · norm_num [riskLevel_spec, totalFGC, FGC_GLOBAL_LIMIT, sampleInv]
  · norm_num [riskLevel_spec, totalFGC, FGC_GLOBAL_LIMIT, sampleInv]

/-- C5: Two positions whose institution names agree after trimming and
uppercasing are merged into a single institution bucket whose total is
the sum of their gross projected values. -/
theorem C5_case_insensitive_merge (p1 p2 : Investment)
    (h : normalizeBank p1.bank = normalizeBank p2.bank) :
    fgcExposure [p1, p2] =
      [(normalizeBank p1.bank, p1.futureValue + p2.futureValue)] := by
  simp [fgcExposure, bankEntries, upsertBank, List.insertionSort, h]

/-- C5 witness: "Banco X" and " banco x " differ only in case and
surrounding whitespace and are merged into one bucket. -/
theorem C5_witness :
    normalizeBank "Banco X" = normalizeBank " banco x " ∧
    fgcExposure [sampleInv "Banco X" 200000, sampleInv " banco x " 100000] =
      [(normalizeBank "Banco X", 200000 + 100000)] := by
  refine ⟨by decide, ?_⟩
  exact C5_case_insensitive_merge
    (sampleInv "Banco X" 200000) (sampleInv " banco x " 100000) (by decide)

/-- C6 counterexample: with two institutions "B" and "A" of equal total
100, the exposure report lists "B" before "A" (first-occurrence order),
not in ascending name order as claimed. -/
theorem C6_counterexample :
    fgcExposure [sampleInv "B" 100, sampleInv "A" 100] = [("B", 100), ("A", 100)] ∧
    fgcExposure [sampleInv "B" 100, sampleInv "A" 100] ≠ [("A", 100), ("B", 100)] := by
  constructor <;>
    norm_num [fgcExposure, bankEntries, upsertBank, sampleInv, List.insertionSort,
      List.orderedInsert, byTotalDesc,
      show normalizeBank "B" = "B" from by decide,
      show normalizeBank "A" = "A" from by decide] <;>
    decide

/-- C6 amended: the exposure report is ordered descending by total, and
institutions with equal totals keep the order in which they first occur
in the position collection (the pre-sort entry order), which makes the
output deterministic. -/
theorem C6_descending_and_stable (investments : List Investment) (t : ℚ) :
    List.Sorted byTotalDesc (fgcExposure investments) ∧
    (fgcExposure investments).filter (fun e => decide (e.2 = t)) =
      (bankEntries investments).filter (fun e => decide (e.2 = t)) :=
  ⟨List.sorted_insertionSort byTotalDesc _, filter_total_insertionSort t _⟩

/-- C7: the global total sums the gross projected value (`futureValue`)
of every position, and the per-institution totals of the exposure report
sum the gross projected values of the positions at that (normalized)
institution. -/
theorem C7_sums_gross (investments : List Investment) (name : String) :
    totalFGC investments = (investments.map (fun i => i.futureValue)).sum ∧
    keyTotal (fgcExposure investments) name =
      ((investments.filter (fun i => decide (normalizeBank i.bank = name))).map
        (fun i => i.futureValue)).sum := by
  constructor
  · rw [totalFGC, totalFGC_foldl, zero_add]
  · rw [fgcExposure, keyTotal_perm (List.perm_insertionSort byTotalDesc _) name,
      bankEntries, keyTotal_bankEntries_foldl]
    simp [keyTotal]

/-- C8: the exposure aggregation is total, and on the empty position
collection it yields an empty institution list, a zero global total and
the `Safe` risk level. -/
theorem C8_empty_collection :
    fgcExposure [] = [] ∧ totalFGC [] = 0 ∧ riskLevel [] = RiskLevel.Safe := by
  refine ⟨rfl, rfl, ?_⟩
  norm_num [riskLevel_spec, totalFGC, FGC_GLOBAL_LIMIT]

/-- C10: when the market-rates store reports an error or holds no row,
`fetchMarketRates` returns the fixed default snapshot
`{cdi: 11.25, ipca: 4.5}`; otherwise it returns the stored numeric
values. -/
theorem C10_fetchMarketRates :
    (∀ data, fetchMarketRates true data = { cdi := 11.25, ipca := 4.5 }) ∧
    fetchMarketRates false none = { cdi := 11.25, ipca := 4.5 } ∧
    (∀ row, fetchMarketRates false (some row) = { cdi := row.cdi, ipca := row.ipca }) :=
  ⟨fun data => by cases data <;> rfl, rfl, fun _ => rfl⟩

/-! ### Helper lemmas about the projection -/

/-- `round2` of an integer-valued real is exact. -/
lemma round2_intValue (x : ℝ) (n : ℤ) (h : x = (n : ℝ)) : round2 x = (n : ℚ) := by
  subst h
  unfold round2
  rw [show (100 : ℝ) * (n : ℝ) = ((100 * n : ℤ) : ℝ) by push_cast; ring, round_intCast]
  push_cast
  rw [mul_div_cancel_left₀ _ (by norm_num : (100 : ℚ) ≠ 0)]

/-- Over a holding period of exactly 365 calendar days the real-valued
exponent is 1, so the gross value is `principal * (1 + rate)`. -/
lemma projectedGross_365 (inv : Investment) (rates : MarketRates)
    (h : inv.dueDate - inv.startDate = 365) :
    projectedGross inv rates =
      (((inv.amount * (1 + effectiveAnnualRate inv.type inv.interestRate rates) : ℚ)) : ℝ) := by
  unfold projectedGross grossFutureValue
  rw [h, show (((365 : ℤ) : ℝ)) / 365 = 1 by norm_num, Real.rpow_one]
  push_cast
  ring

/-! ### Claims about the projection -/

/-- C2: spec-modelled scenario — principal 10000, regime
`PostFixedToReferenceIndex` (CDI), rateParameter 100,
referenceIndexAnnualRate 12, taxRate 15, holding period exactly 365
calendar days: the effective annual rate is 0.12, gross is 11200.00 and
net is 11020.00. -/
theorem C2_scenario (id broker bank : String) (title : InvestmentTitle)
    (q fv nfv : ℚ) (s ca : ℤ) (ipcaRate : ℚ) :
    effectiveAnnualRate InvestmentType.CDI 100 { cdi := 12, ipca := ipcaRate } = 12 / 100 ∧
    calculateFutureValue
      { id := id, broker := broker, bank := bank, title := title,
        type := InvestmentType.CDI, amount := 10000, quantity := q,
        interestRate := 100, incomeTax := 15, startDate := s, dueDate := s + 365,
        futureValue := fv, netFutureValue := nfv, createdAt := ca }
      { cdi := 12, ipca := ipcaRate } = Except.ok ⟨11200, 11020⟩ := by
  set inv : Investment :=
    { id := id, broker := broker, bank := bank, title := title,
      type := InvestmentType.CDI, amount := 10000, quantity := q,
      interestRate := 100, incomeTax := 15, startDate := s, dueDate := s + 365,
      futureValue := fv, netFutureValue := nfv, createdAt := ca } with hinv
  set rates : MarketRates := { cdi := 12, ipca := ipcaRate } with hrates
  have hrate : effectiveAnnualRate InvestmentType.CDI 100 rates = 12 / 100 := by
    norm_num [effectiveAnnualRate, hrates]
  refine ⟨hrate, ?_⟩
  have hdays : inv.dueDate - inv.startDate = 365 := by
    simp [hinv]
  have hgross : projectedGross inv rates = ((11200 : ℚ) : ℝ) := by
    rw [projectedGross_365 inv rates hdays]
    norm_num [hinv, effectiveAnnualRate, hrates]
  have hgain : projectedGain inv rates = ((1200 : ℚ) : ℝ) := by
    rw [projectedGain, hgross]
    norm_num [hinv]
  have hc1 : ¬(inv.dueDate ≤ inv.startDate) := by simp [hinv]
  have hc2 : ¬(inv.amount ≤ (0 : ℚ)) := by norm_num [hinv]
  have hc3 : ¬(projectedGain inv rates < 0) := by rw [hgain]; norm_num
  rw [calculateFutureValue, if_neg hc1, if_neg hc2, if_neg hc3]
  have hg2 : round2 (projectedGross inv rates) = 11200 := by
    rw [hgross]
    exact round2_intValue _ 11200 (by norm_num)
  have hnet : (inv.amount : ℝ) + projectedGain inv rates * (1 - (inv.incomeTax : ℝ) / 100) =
      ((11020 : ℤ) : ℝ) := by
    rw [hgain]
    norm_num [hinv]
  have hn2 : round2 ((inv.amount : ℝ) +
      projectedGain inv rates * (1 - (inv.incomeTax : ℝ) / 100)) = 11020 := by
    rw [round2_intValue _ 11020 hnet]
    norm_num
  rw [hg2, hn2]

/-- C3: spec-modelled — on a position whose projected gain is negative
(unrounded gross below the principal), the projection applies no tax:
net equals gross exactly, so `net ≤ gross` also holds. -/
theorem C3_loss_untaxed (inv : Investment) (rates : MarketRates) (res : CalculationResult)
    (hok : calculateFutureValue inv rates = Except.ok res)
    (hneg : projectedGain inv rates < 0) :
    res.net = res.gross ∧ res.net ≤ res.gross := by
  unfold calculateFutureValue at hok
  split_ifs at hok
  obtain rfl := Except.ok.inj hok
  exact ⟨rfl, le_refl _⟩

/-- A loss position: a fixed-nominal regime at rate −50% over exactly one
year halves the principal. -/
def invLoss : Investment :=
  { id := "", broker := "", bank := "", title := InvestmentTitle.CDB,
    type := InvestmentType.PREFIXADO, amount := 10000, quantity := 1,
    interestRate := -50, incomeTax := 15, startDate := 0, dueDate := 365,
    futureValue := 0, netFutureValue := 0, createdAt := 0 }

/-- The default market-rates snapshot, used as a concrete input. -/
def ratesDefault : MarketRates := { cdi := 11.25, ipca := 4.5 }

/-- C3 witness: the loss position `invLoss` projects to gross = net =
5000.00 and its projected gain is negative. -/
theorem C3_witness :
    calculateFutureValue invLoss ratesDefault = Except.ok ⟨5000, 5000⟩ ∧
    projectedGain invLoss ratesDefault < 0 ∧
    ((⟨5000, 5000⟩ : CalculationResult).net = (⟨5000, 5000⟩ : CalculationResult).gross ∧
      (⟨5000, 5000⟩ : CalculationResult).net ≤ (⟨5000, 5000⟩ : CalculationResult).gross) := by
  have hdays : invLoss.dueDate - invLoss.startDate = 365 := by simp [invLoss]
  have hgross : projectedGross invLoss ratesDefault = ((5000 : ℚ) : ℝ) := by
    rw [projectedGross_365 invLoss ratesDefault hdays]
    norm_num [invLoss, effectiveAnnualRate]
  have hneg : projectedGain invLoss ratesDefault < 0 := by
    rw [projectedGain, hgross]
    norm_num [invLoss]
  have hok : calculateFutureValue invLoss ratesDefault = Except.ok ⟨5000, 5000⟩ := by
    rw [calculateFutureValue, if_neg (by simp [invLoss]), if_neg (by norm_num [invLoss]),
      if_pos hneg]
    have : round2 (projectedGross invLoss ratesDefault) = 5000 := by
      rw [hgross]
      exact round2_intValue _ 5000 (by norm_num)
    rw [this]
  exact ⟨hok, hneg, C3_loss_untaxed invLoss ratesDefault ⟨5000, 5000⟩ hok hneg⟩

/-- A position invalid on both counts: non-positive principal and a
non-positive holding period. -/
def invBothInvalid : Investment :=
  { id := "", broker := "", bank := "", title := InvestmentTitle.CDB,
    type := InvestmentType.PREFIXADO, amount := -5, quantity := 1,
    interestRate := 10, incomeTax := 15, startDate := 0, dueDate := 0,
    futureValue := 0, netFutureValue := 0, createdAt := 0 }

/-- C4 counterexample: on a position with `principal ≤ 0` and
`dueDate ≤ startDate` the projection fails with `InvalidPeriod`, not
`InvalidPrincipal` — so "fails with `InvalidPrincipal` exactly when
`principal ≤ 0`" is false as stated. -/
theorem C4_counterexample :
    invBothInvalid.amount ≤ 0 ∧
    invBothInvalid.dueDate ≤ invBothInvalid.startDate ∧
    calculateFutureValue invBothInvalid ratesDefault = Except.error CalcError.InvalidPeriod ∧
    calculateFutureValue invBothInvalid ratesDefault ≠ Except.error CalcError.InvalidPrincipal := by
  have h : calculateFutureValue invBothInvalid ratesDefault =
      Except.error CalcError.InvalidPeriod := by
    rw [calculateFutureValue, if_pos (by norm_num [invBothInvalid])]
  refine ⟨by norm_num [invBothInvalid], by norm_num [invBothInvalid], h, ?_⟩
  rw [h]
  simp

/-- C4 amended: spec-modelled — the projection fails with `InvalidPeriod`
exactly when `dueDate ≤ startDate`; it fails with `InvalidPrincipal`
exactly when `principal ≤ 0` and the period is valid (the period check
comes first); every other numeric input produces a numeric result. -/
theorem C4_amended (inv : Investment) (rates : MarketRates) :
    (calculateFutureValue inv rates = Except.error CalcError.InvalidPeriod ↔
      inv.dueDate ≤ inv.startDate) ∧
    (calculateFutureValue inv rates = Except.error CalcError.InvalidPrincipal ↔
      (inv.amount ≤ 0 ∧ inv.startDate < inv.dueDate)) ∧
    ((∃ res, calculateFutureValue inv rates = Except.ok res) ↔
      (0 < inv.amount ∧ inv.startDate < inv.dueDate)) := by
  unfold calculateFutureValue
  split_ifs with h1 h2 h3
  · simp only [Int.not_lt.mpr h1]
    simp [h1]
  · have hlt : inv.startDate < inv.dueDate := Int.not_le.mp h1
    simp [h1, h2, hlt]
  · have hlt : inv.startDate < inv.dueDate := Int.not_le.mp h1
    have hpos : 0 < inv.amount := not_le.mp h2
    simp [h1, h2, hlt, hpos]
  · have hlt : inv.startDate < inv.dueDate := Int.not_le.mp h1
    have hpos : 0 < inv.amount := not_le.mp h2
    simp [h1, h2, hlt, hpos]

/-- C9: the bulk recompute of `handleMarketRatesChange` maps each stored
position to a copy in which only `futureValue` and `netFutureValue` are
replaced by the freshly computed gross and net; every other field, and
the length and order of the collection, are unchanged. -/
theorem C9_recompute_frame (investments : List Investment) (newRates : MarketRates) :
    (updatedInvestments investments newRates).length = investments.length ∧
    List.Forall₂ (fun inv inv' =>
      inv'.id = inv.id ∧ inv'.broker = inv.broker ∧ inv'.bank = inv.bank ∧
      inv'.title = inv.title ∧ inv'.type = inv.type ∧ inv'.amount = inv.amount ∧
      inv'.quantity = inv.quantity ∧ inv'.interestRate = inv.interestRate ∧
      inv'.incomeTax = inv.incomeTax ∧ inv'.startDate = inv.startDate ∧
      inv'.dueDate = inv.dueDate ∧ inv'.createdAt = inv.createdAt ∧
      ∀ r, calculateFutureValue inv newRates = Except.ok r →
        inv'.futureValue = r.gross ∧ inv'.netFutureValue = r.net)
      investments (updatedInvestments investments newRates) := by
  refine ⟨by simp [updatedInvestments], ?_⟩
  induction investments with
  | nil => exact List.Forall₂.nil
  | cons inv rest ih =>
    refine List.Forall₂.cons ?_ ih
    cases hcalc : calculateFutureValue inv newRates with
    | ok r0 =>
      simp [hcalc]
    | error e =>
      simp [hcalc]

/-- C9 witness: the frame property instantiated at a concrete singleton
collection and rate snapshot. -/
theorem C9_witness :
    (updatedInvestments [invLoss] ratesDefault).length = [invLoss].length ∧
    List.Forall₂ (fun inv inv' =>
      inv'.id = inv.id ∧ inv'.broker = inv.broker ∧ inv'.bank = inv.bank ∧
      inv'.title = inv.title ∧ inv'.type = inv.type ∧ inv'.amount = inv.amount ∧
      inv'.quantity = inv.quantity ∧ inv'.interestRate = inv.interestRate ∧
      inv'.incomeTax = inv.incomeTax ∧ inv'.startDate = inv.startDate ∧
      inv'.dueDate = inv.dueDate ∧ inv'.createdAt = inv.createdAt ∧
      ∀ r, calculateFutureValue inv ratesDefault = Except.ok r →
        inv'.futureValue = r.gross ∧ inv'.netFutureValue = r.net)
      [invLoss] (updatedInvestments [invLoss] ratesDefault) :=
  C9_recompute_frame [invLoss] ratesDefault
